import Mathlib

/-!
Verification of the HTB repository's subnet ping sweeper (`src/pingsc.py`)
and URL encoder (`src/pyscripts/urlencoder.py`) against their specification.

The Python code is shallowly embedded: IPv4 addresses are `Nat` values below
`2 ^ 32`, the external ping subprocess is an opaque probe capability
`String → ProbeOutcome`, and the stdlib functions the scripts call
(`ipaddress.ip_network`, `IPv4Network.hosts`, `str(IPv4Address)`,
`urllib.parse.quote` / `unquote`) are translated from their CPython sources.
-/

namespace Pingsc

/-- Outcome of one invocation of the external `ping` subprocess for one
address: the process ran and returned an exit code, the
`subprocess.run(..., timeout=timeout+1)` call raised `TimeoutExpired`, or some
other exception was raised.  This is the opaque liveness-probe capability of
spec section 6; a deterministic network is a fixed function of this type. -/
inductive ProbeOutcome where
  | completed (returncode : Int)
  | timedOut
  | error
deriving DecidableEq, Repr

/-- Models `ping_host` (src/pingsc.py lines 8-31): runs the ping command for
the dotted-quad string `ip`; returns `(True, ip)` exactly when the subprocess
completed with return code `0`, and `(False, ip)` on a nonzero return code, a
timeout, or any other exception (the bare `except (TimeoutExpired, Exception)`
arm).  Note the second component is the *string* argument echoed back. -/
def ping_host (probe : String → ProbeOutcome) (ip : String) : Bool × String :=
  match probe ip with
  | .completed rc => (rc == 0, ip)
  | .timedOut => (false, ip)
  | .error => (false, ip)

/-- Helper for `splitOn`: accumulates the current (reversed) chunk. -/
def splitAux (sep : Char) (acc : List Char) : List Char → List (List Char)
  | [] => [acc.reverse]
  | c :: rest =>
    if c = sep then acc.reverse :: splitAux sep [] rest
    else splitAux sep (c :: acc) rest

/-- Models Python `str.split(sep)` for a single-character separator (as used
on `'/'` and `'.'` by `ipaddress`): `"".split(s) = [""]`, separators at the
ends produce empty chunks. -/
def splitOn (sep : Char) (s : List Char) : List (List Char) :=
  splitAux sep [] s

/-- ASCII decimal digit test, modelling `octet_str.isascii() and
octet_str.isdigit()` (only ASCII `'0'`-`'9'` pass both). -/
def isDigitChar (c : Char) : Bool :=
  decide (48 ≤ c.toNat) && decide (c.toNat ≤ 57)

/-- Decimal value of a digit string, modelling `int(s, 10)`. -/
def digitsVal (cs : List Char) : Nat :=
  cs.foldl (fun a c => 10 * a + (c.toNat - 48)) 0

/-- Models `ipaddress._BaseV4._parse_octet`: an octet is 1-3 ASCII decimal
digits, with no leading zero unless it is exactly `"0"`, and value at most
255. -/
def parseOctet (cs : List Char) : Option Nat :=
  if cs.length = 0 then none
  else if cs.all isDigitChar then
    if 3 < cs.length then none
    else if cs ≠ ['0'] ∧ cs.headD '0' = '0' then none
    else if digitsVal cs ≤ 255 then some (digitsVal cs) else none
  else none

/-- Models `ipaddress._BaseV4._ip_int_from_string`: exactly four octets
separated by `'.'`, combined big-endian into one 32-bit value. -/
def parseIPv4 (cs : List Char) : Option Nat :=
  match (splitOn '.' cs).map parseOctet with
  | [some a, some b, some c, some d] => some (((a * 256 + b) * 256 + c) * 256 + d)
  | _ => none

/-- Models `ipaddress._prefix_from_prefix_string`: ASCII digits only
(leading zeros permitted here), value at most 32. -/
def parseMaskLen (cs : List Char) : Option Nat :=
  if cs.length = 0 then none
  else if cs.all isDigitChar then
    if digitsVal cs ≤ 32 then some (digitsVal cs) else none
  else none

/-- Models `ipaddress._prefix_from_ip_int`: a 32-bit value is a valid
netmask when it consists of `p` one bits followed by `32 - p` zero bits,
in which case the prefix length is `p`.  Realized as a search over the 33
possible prefix lengths. -/
def maskLenOfNetmask (m : Nat) : Option Nat :=
  (List.range 33).find? (fun p => m == 2 ^ 32 - 2 ^ (32 - p))

/-- Models `ipaddress._make_netmask` for a string argument: first try the
prefix-length form, then a dotted-quad netmask, then (complementing the
bits, `ip_int ^= ALL_ONES`) a dotted-quad hostmask. -/
def parseMask (cs : List Char) : Option Nat :=
  match parseMaskLen cs with
  | some p => some p
  | none =>
    match parseIPv4 cs with
    | some m =>
      match maskLenOfNetmask m with
      | some p => some p
      | none => maskLenOfNetmask (2 ^ 32 - 1 - m)
    | none => none

/-- An IPv4 network as produced by `ipaddress.ip_network(spec, strict=False)`:
the (already masked) network address and the prefix length. -/
structure IPNetwork where
  network_address : Nat
  prefixlen : Nat
deriving DecidableEq, Repr

/-- Models `ipaddress.ip_network(s, strict=False)` for IPv4 (the spec scopes
the sweeper to IPv4; the IPv6 branch of `ip_network` is outside it): split on
`'/'` (at most one permitted, a missing mask meaning `/32`), parse address and
mask, and clear the host bits of the address (`packed & int(self.netmask)`,
which for `addr < 2 ^ 32` is `addr - addr % 2 ^ (32 - p)`).  Returns `none`
exactly where CPython raises `ValueError`. -/
def ip_network (s : String) : Option IPNetwork :=
  match splitOn '/' s.data with
  | [a] =>
    match parseIPv4 a with
    | some addr => some ⟨addr, 32⟩
    | none => none
  | [a, m] =>
    match parseIPv4 a, parseMask m with
    | some addr, some p => some ⟨addr - addr % 2 ^ (32 - p), p⟩
    | _, _ => none
  | _ => none

/-- `int(self.broadcast_address)`: the network address with all host bits
set, i.e. `network + 2 ^ (host bits) - 1`. -/
def broadcastAddress (n : IPNetwork) : Nat :=
  n.network_address + 2 ^ (32 - n.prefixlen) - 1

/-- Models `IPv4Network.hosts()` (CPython `ipaddress.py`): with
`network = int(self.network_address)` and
`broadcast = int(self.broadcast_address)`, a `/31` (`broadcast - network == 1`)
yields both addresses, a `/32` (`broadcast - network == 0`) yields the single
address, and otherwise the result is `range(network + 1, broadcast)` -
every address strictly between network and broadcast. -/
def hostsList (n : IPNetwork) : List Nat :=
  if broadcastAddress n - n.network_address = 1 then
    [n.network_address, broadcastAddress n]
  else if broadcastAddress n - n.network_address = 0 then
    [n.network_address]
  else
    List.range' (n.network_address + 1) (broadcastAddress n - n.network_address - 1)

/-- Decimal rendering of one octet (no leading zeros), as Python's `str` of
an integer in 0..255. -/
def octetToString (o : Nat) : List Char :=
  if o < 10 then [Char.ofNat (48 + o)]
  else if o < 100 then [Char.ofNat (48 + o / 10), Char.ofNat (48 + o % 10)]
  else [Char.ofNat (48 + o / 100), Char.ofNat (48 + o / 10 % 10), Char.ofNat (48 + o % 10)]

/-- Models `str(ipaddress.IPv4Address(n))`: the dotted-quad decimal string of
the four big-endian octets.  This is the `str(ip)` passed to `ping_host` in
the dict comprehension on line 49. -/
def numToDotted (n : Nat) : String :=
  ⟨octetToString (n / 2 ^ 24 % 256) ++ '.' ::
    (octetToString (n / 2 ^ 16 % 256) ++ '.' ::
      (octetToString (n / 2 ^ 8 % 256) ++ '.' :: octetToString (n % 256)))⟩

/-- Observable outcome of one call to `scan_subnet` (src/pingsc.py lines
33-63): the returned `active_hosts` list (of dotted-quad strings, in append
order), the final value of the `total_scanned` counter, the list of addresses
for which a probe task was submitted to the executor (`future_to_ip`, in
submission order), and whether the `except ValueError` arm printed the
"Invalid subnet format" error. -/
structure ScanOutcome where
  active_hosts : List String
  total_scanned : Nat
  submitted : List String
  error_printed : Bool
deriving DecidableEq, Repr

/-- Models `scan_subnet(subnet, max_threads)`.  An unparsable `subnet` raises
`ValueError` in `ip_network` before any task is created; the handler prints
an error and returns `[]`.  `ThreadPoolExecutor(max_workers=0)` likewise
raises `ValueError` (caught by the same handler) before any submission.
Otherwise one task per element of `network.hosts()` is submitted (keyed by
its distinct `Future`, valued by the address, in submission order), and the
loop `for future in future_to_ip` consumes each future's result in submission
order, counting every future and appending the echoed string of each Up
address.  The returned value of each future is `ping_host probe (str ip)`
independently of scheduling, so the lists below are schedule-independent;
timing is modelled separately by `resultConsumeTime`. -/
def scan_subnet (subnet : String) (probe : String → ProbeOutcome)
    (max_threads : Nat) : ScanOutcome :=
  match ip_network subnet with
  | none => ⟨[], 0, [], true⟩
  | some network =>
    if max_threads = 0 then ⟨[], 0, [], true⟩
    else
      let ips := (hostsList network).map numToDotted
      ⟨ips.filter (fun ip => (ping_host probe ip).1), ips.length, ips, false⟩

/-- The final `ProbeResult` set of one sweep: the `future_to_ip` dictionary
pairs each host address with its own distinct `Future`, and each future
resolves to exactly one `ping_host` result, so the result set is one
`(address, outcome)` pair per element of `hosts()`. -/
def probeResults (network : IPNetwork) (probe : String → ProbeOutcome) :
    List (Nat × Bool) :=
  (hostsList network).map (fun ip => (ip, (ping_host probe (numToDotted ip)).1))

/-- Python's default string ordering (lexicographic by code point), on
character lists: `a ≤ b`. -/
def charListLe : List Char → List Char → Bool
  | [], _ => true
  | _ :: _, [] => false
  | a :: as, b :: bs =>
    if a.toNat < b.toNat then true
    else if b.toNat < a.toNat then false
    else charListLe as bs

/-- Python's `≤` on strings, as used (via `<`) by `sorted` on the
`active_hosts` list of strings in `main` (src/pingsc.py line 81). -/
def pyStrLe (a b : String) : Prop :=
  charListLe a.data b.data = true

instance (a b : String) : Decidable (pyStrLe a b) := by
  unfold pyStrLe; infer_instance

/-- The list printed by `main`'s final loop `for host in
sorted(active_hosts)`, for a run of `scan_subnet` with worker ceiling
`max_threads`: Python's `sorted` on a list of `str` orders lexicographically
by code point; `sorted` is a stable sort, and insertion sort computes the
same (unique) stable result for the same ordering. -/
def reportedList (subnet : String) (probe : String → ProbeOutcome)
    (max_threads : Nat) : List String :=
  List.insertionSort pyStrLe ((scan_subnet subnet probe max_threads).active_hosts)

/-- Observable outcome of `main` (src/pingsc.py lines 65-86) on a given
(already stripped) input line: the printed count of active hosts, the sorted
list of printed host strings, and the process exit code.  `main` calls
`scan_subnet` with the default `max_threads=50`, never raises (scan_subnet
catches the only error), and falls off the end, so CPython exits 0. -/
structure MainOutcome where
  active_count : Nat
  reported : List String
  exit_code : Nat
deriving DecidableEq, Repr

/-- Models `main` for input `subnet` against probe capability `probe`. -/
def main (subnet : String) (probe : String → ProbeOutcome) : MainOutcome :=
  let active := (scan_subnet subnet probe 50).active_hosts
  ⟨active.length, List.insertionSort pyStrLe active, 0⟩

/-- Completion time of the `i`-th submitted probe: `times` lists, in
submission order, the instant each probe's subprocess resolves (all probes
started at time 0, worker ceiling at least the number of probes). -/
def completionTime (times : List Nat) (i : Nat) : Nat :=
  times.getD i 0

/-- Time at which the result-consumption loop of `scan_subnet`
(src/pingsc.py lines 52-57) obtains the `i`-th submitted probe's result:
`for future in future_to_ip` iterates the futures in submission order and
`future.result()` blocks until that future resolves, so result `i` is
consumed only once every probe submitted at or before `i` has completed -
the running maximum of the completion times, not the `i`-th completion time
itself. -/
def resultConsumeTime (times : List Nat) (i : Nat) : Nat :=
  (times.take (i + 1)).foldl (fun a b => max a b) 0

/-- A probe capability under which every probe attempt times out. -/
def probeAllDown : String → ProbeOutcome := fun _ => .timedOut

/-- Deterministic fake probe: Up exactly for 192.168.1.1. -/
def probeUpDotOne : String → ProbeOutcome := fun ip =>
  if ip = "192.168.1.1" then .completed 0 else .completed 1

/-- Deterministic fake probe: Up exactly for 192.168.1.2 and 192.168.1.10. -/
def probeTwoUp : String → ProbeOutcome := fun ip =>
  if ip = "192.168.1.2" ∨ ip = "192.168.1.10" then .completed 0 else .completed 1

end Pingsc

namespace UrlEncoder

/-!
Model of the `-encode` / `-decode` operations of
`src/pyscripts/urlencoder.py`, which call `urllib.parse.quote(s)` and
`urllib.parse.unquote(s)`.  A Python `str` accepted by `quote` (whose first
step is `s.encode('utf-8')`, strict) is a sequence of Unicode scalar values;
strings are embedded as lists of code points (`Nat`).
-/

/-- A Unicode scalar value: a code point that is not a surrogate.  These are
exactly the strings `str.encode('utf-8')` accepts (encoding a lone surrogate
raises `UnicodeEncodeError`, so `quote` is only defined on scalar values). -/
def isScalar (c : Nat) : Prop :=
  c < 0xD800 ∨ (0xE000 ≤ c ∧ c < 0x110000)

instance (c : Nat) : Decidable (isScalar c) := by
  unfold isScalar; infer_instance

/-- UTF-8 encoding of one scalar value, as performed by CPython's
`str.encode('utf-8')`: 1 to 4 bytes depending on the code point range. -/
def utf8EncodeChar (c : Nat) : List Nat :=
  if c < 0x80 then [c]
  else if c < 0x800 then [0xC0 + c / 64, 0x80 + c % 64]
  else if c < 0x10000 then [0xE0 + c / 4096, 0x80 + c / 64 % 64, 0x80 + c % 64]
  else [0xF0 + c / 262144, 0x80 + c / 4096 % 64, 0x80 + c / 64 % 64, 0x80 + c % 64]

/-- The bytes `urllib.parse.quote` leaves unescaped with its default
`safe='/'`: `_ALWAYS_SAFE` (ASCII letters, digits, `_.-~`) plus `'/'`. -/
def isSafeByte (b : Nat) : Prop :=
  (0x41 ≤ b ∧ b ≤ 0x5A) ∨ (0x61 ≤ b ∧ b ≤ 0x7A) ∨ (0x30 ≤ b ∧ b ≤ 0x39) ∨
    b = 0x5F ∨ b = 0x2E ∨ b = 0x2D ∨ b = 0x7E ∨ b = 0x2F

instance (b : Nat) : Decidable (isSafeByte b) := by
  unfold isSafeByte; infer_instance

/-- Code point of the uppercase hex digit for `n < 16`, as in the
`'%{:02X}'.format(char)` escapes built by `urllib.parse.Quoter`. -/
def hexDigitOf (n : Nat) : Nat :=
  if n < 10 then 48 + n else 55 + n

/-- Models `urllib.parse.quote_from_bytes` (with the default safe set): each
safe byte stands for itself, every other byte becomes `%` followed by two
uppercase hex digits.  The result is a list of ASCII code points. -/
def quote_from_bytes : List Nat → List Nat
  | [] => []
  | b :: bs =>
    (if isSafeByte b then [b] else [37, hexDigitOf (b / 16), hexDigitOf (b % 16)]) ++
      quote_from_bytes bs

/-- Models `urllib.parse.quote(s)` with its defaults (`safe='/'`,
`encoding='utf-8'`): UTF-8 encode the string, then percent-escape the
bytes. -/
def quote (s : List Nat) : List Nat :=
  quote_from_bytes (s.flatMap utf8EncodeChar)

/-- An ASCII hex digit (either case), as accepted by the two-character
`_hextobyte` table keys of `urllib.parse.unquote_to_bytes`. -/
def isHexDigit (c : Nat) : Prop :=
  (48 ≤ c ∧ c ≤ 57) ∨ (65 ≤ c ∧ c ≤ 70) ∨ (97 ≤ c ∧ c ≤ 102)

instance (c : Nat) : Decidable (isHexDigit c) := by
  unfold isHexDigit; infer_instance

/-- Value of an ASCII hex digit (only meaningful when `isHexDigit`). -/
def hexValOf (c : Nat) : Nat :=
  if c ≤ 57 then c - 48 else if c ≤ 70 then c - 55 else c - 87

/-- Models `urllib.parse.unquote_to_bytes` on ASCII text: a `%` followed by
exactly two hex digits becomes the corresponding byte; a `%` not followed by
two hex digits stays literal (the `KeyError` arm of the `_hextobyte`
lookup), and every other character stands for its own byte. -/
def unquote_to_bytes : List Nat → List Nat
  | c :: h :: l :: rest =>
    if c = 37 ∧ isHexDigit h ∧ isHexDigit l then
      (16 * hexValOf h + hexValOf l) :: unquote_to_bytes rest
    else c :: unquote_to_bytes (h :: l :: rest)
  | c :: rest => c :: unquote_to_bytes rest
  | [] => []

/-- Whether a byte is a UTF-8 continuation byte (`10xxxxxx`). -/
def isContByte (b : Nat) : Prop :=
  0x80 ≤ b ∧ b < 0xC0

instance (b : Nat) : Decidable (isContByte b) := by
  unfold isContByte; infer_instance

/-- Models `bytes.decode('utf-8', errors='replace')` as called by
`urllib.parse.unquote`: a well-formed sequence (correct continuation bytes,
no overlong forms - hence the `0xC2` lower bound and the `0xE0`/`0xF0`
second-byte floors - no surrogates via the `0xED` ceiling, and nothing past
U+10FFFF via the `0xF4` ceiling) decodes to its code point; a byte that
starts no valid sequence yields U+FFFD and decoding resumes at the next
byte.  (CPython's replacement emits one U+FFFD per maximal invalid
subsequence rather than per byte; the two agree on every valid byte string,
and only valid byte strings arise in the theorems below.) -/
def utf8Decode : List Nat → List Nat
  | [] => []
  | b :: bs =>
    if b < 0x80 then b :: utf8Decode bs
    else if 0xC2 ≤ b ∧ b < 0xE0 ∧ isContByte (bs.getD 0 0) then
      ((b - 0xC0) * 64 + (bs.getD 0 0 - 0x80)) :: utf8Decode (bs.drop 1)
    else if 0xE0 ≤ b ∧ b < 0xF0 ∧ isContByte (bs.getD 0 0) ∧ isContByte (bs.getD 1 0) ∧
        ¬(b = 0xE0 ∧ bs.getD 0 0 < 0xA0) ∧ ¬(b = 0xED ∧ 0xA0 ≤ bs.getD 0 0) then
      ((b - 0xE0) * 4096 + (bs.getD 0 0 - 0x80) * 64 + (bs.getD 1 0 - 0x80)) ::
        utf8Decode (bs.drop 2)
    else if 0xF0 ≤ b ∧ b < 0xF5 ∧ isContByte (bs.getD 0 0) ∧ isContByte (bs.getD 1 0) ∧
        isContByte (bs.getD 2 0) ∧ ¬(b = 0xF0 ∧ bs.getD 0 0 < 0x90) ∧
        ¬(b = 0xF4 ∧ 0x90 ≤ bs.getD 0 0) then
      ((b - 0xF0) * 262144 + (bs.getD 0 0 - 0x80) * 4096 + (bs.getD 1 0 - 0x80) * 64 +
        (bs.getD 2 0 - 0x80)) :: utf8Decode (bs.drop 3)
    else 0xFFFD :: utf8Decode bs
termination_by l => l.length
decreasing_by
  all_goals simp [List.length_drop]
  all_goals omega

/-- Helper for `unquote`, mirroring the structure of `urllib.parse.unquote`:
the string is cut at non-ASCII characters (`_asciire` splits on maximal
ASCII runs); each ASCII run is percent-decoded and the resulting bytes are
UTF-8-decoded with `errors='replace'`, while non-ASCII characters pass
through unchanged.  `acc` holds the current ASCII run, reversed. -/
def unquoteAux (acc : List Nat) : List Nat → List Nat
  | [] => utf8Decode (unquote_to_bytes acc.reverse)
  | c :: rest =>
    if c < 0x80 then unquoteAux (c :: acc) rest
    else utf8Decode (unquote_to_bytes acc.reverse) ++ c :: unquoteAux [] rest

/-- Models `urllib.parse.unquote(s)` with its defaults
(`encoding='utf-8'`, `errors='replace'`). -/
def unquote (s : List Nat) : List Nat :=
  unquoteAux [] s

end UrlEncoder

namespace Pingsc

theorem charListLe_total : ∀ as bs : List Char, charListLe as bs || charListLe bs as := by
  intro as
  induction as with
  | nil => intro bs; cases bs <;> simp [charListLe]
  | cons a as ih =>
    intro bs
    cases bs with
    | nil => simp [charListLe]
    | cons b bs =>
      simp only [charListLe]
      by_cases h1 : a.toNat < b.toNat
      · simp [h1]
      · by_cases h2 : b.toNat < a.toNat
        · simp [h1, h2]
        · simp only [h1, h2, if_false]
          exact ih bs

theorem charListLe_trans :
    ∀ as bs cs : List Char, charListLe as bs → charListLe bs cs → charListLe as cs := by
  intro as
  induction as with
  | nil => intro bs cs _ _; rfl
  | cons a as ih =>
    intro bs cs hab hbc
    cases bs with
    | nil => simp [charListLe] at hab
    | cons b bs =>
      cases cs with
      | nil => simp [charListLe] at hbc
      | cons c cs =>
        simp only [charListLe] at hab hbc ⊢
        by_cases h1 : a.toNat < b.toNat
        · by_cases h2 : b.toNat < c.toNat
          · rw [if_pos (by omega)]
          · rw [if_neg h2] at hbc
            by_cases h3 : c.toNat < b.toNat
            · rw [if_pos h3] at hbc; simp at hbc
            · rw [if_pos (by omega)]
        · rw [if_neg h1] at hab
          by_cases h3 : b.toNat < a.toNat
          · rw [if_pos h3] at hab; simp at hab
          · rw [if_neg h3] at hab
            by_cases h2 : b.toNat < c.toNat
            · rw [if_pos (by omega)]
            · rw [if_neg h2] at hbc
              by_cases h4 : c.toNat < b.toNat
              · rw [if_pos h4] at hbc; simp at hbc
              · rw [if_neg h4] at hbc
                rw [if_neg (by omega), if_neg (by omega)]
                exact ih bs cs hab hbc

theorem pyStrLe_trans : ∀ a b c : String, pyStrLe a b → pyStrLe b c → pyStrLe a c :=
  fun a b c hab hbc => charListLe_trans a.data b.data c.data hab hbc

theorem pyStrLe_total : ∀ a b : String, pyStrLe a b ∨ pyStrLe b a := by
  intro a b
  have h := charListLe_total a.data b.data
  rcases Bool.or_eq_true_iff.mp h with h | h
  · exact Or.inl h
  · exact Or.inr h

theorem hostsList_pairwise_lt (n : IPNetwork) :
    (hostsList n).Pairwise (fun a b => a < b) := by
  unfold hostsList
  split
  · next h =>
    unfold broadcastAddress at h ⊢
    refine List.Pairwise.cons ?_ (List.pairwise_singleton _ _)
    intro b hb
    simp only [List.mem_singleton] at hb
    omega
  · split
    · exact List.pairwise_singleton _ _
    · exact List.pairwise_lt_range' _ _

theorem hostsList_nodup (n : IPNetwork) : (hostsList n).Nodup :=
  (hostsList_pairwise_lt n).imp Nat.ne_of_lt

theorem hostsList_length (n : IPNetwork) (h : n.prefixlen ≤ 32) :
    (hostsList n).length =
      if n.prefixlen ≤ 30 then 2 ^ (32 - n.prefixlen) - 2 else 2 ^ (32 - n.prefixlen) := by
  unfold hostsList broadcastAddress
  by_cases h30 : n.prefixlen ≤ 30
  · have h4 : 4 ≤ 2 ^ (32 - n.prefixlen) := by
      calc (4 : ℕ) = 2 ^ 2 := by norm_num
      _ ≤ 2 ^ (32 - n.prefixlen) := Nat.pow_le_pow_right (by norm_num) (by omega)
    rw [if_neg (by omega), if_neg (by omega), List.length_range', if_pos h30]
    omega
  · have h31 : n.prefixlen = 31 ∨ n.prefixlen = 32 := by omega
    rcases h31 with h31 | h31 <;> rw [h31] <;> norm_num

theorem parseMaskLen_le {cs : List Char} {p : Nat} (h : parseMaskLen cs = some p) :
    p ≤ 32 := by
  unfold parseMaskLen at h
  split_ifs at h
  all_goals simp_all

theorem maskLenOfNetmask_le {m p : Nat} (h : maskLenOfNetmask m = some p) : p ≤ 32 := by
  have hm := List.mem_of_find?_eq_some h
  rw [List.mem_range] at hm
  omega

theorem parseMask_le {cs : List Char} {p : Nat} (h : parseMask cs = some p) : p ≤ 32 := by
  unfold parseMask at h
  split at h
  · injection h with h
    exact h ▸ parseMaskLen_le (by assumption)
  · split at h
    · split at h
      · injection h with h
        exact h ▸ maskLenOfNetmask_le (by assumption)
      · exact maskLenOfNetmask_le h
    · exact absurd h (by simp)

theorem ip_network_prefixlen_le {s : String} {net : IPNetwork}
    (h : ip_network s = some net) : net.prefixlen ≤ 32 := by
  unfold ip_network at h
  split at h
  · split at h
    · injection h with h
      subst h
      exact le_refl 32
    · exact absurd h (by simp)
  · split at h
    · injection h with h
      subst h
      exact parseMask_le (by assumption)
    · exact absurd h (by simp)
  · exact absurd h (by simp)

theorem scan_subnet_indep (s : String) (p : String → ProbeOutcome) {w1 w2 : Nat}
    (h1 : w1 ≠ 0) (h2 : w2 ≠ 0) : scan_subnet s p w1 = scan_subnet s p w2 := by
  unfold scan_subnet
  cases ip_network s with
  | none => rfl
  | some net => simp [h1, h2]

end Pingsc

namespace UrlEncoder

theorem utf8EncodeChar_lt_256 {c : Nat} (h : c < 0x110000) :
    ∀ b ∈ utf8EncodeChar c, b < 256 := by
  unfold utf8EncodeChar
  split_ifs <;> intro b hb <;> fin_cases hb <;> omega

theorem quote_from_bytes_ascii {bs : List Nat} (hb : ∀ b ∈ bs, b < 256) :
    ∀ c ∈ quote_from_bytes bs, c < 0x80 := by
  induction bs with
  | nil => simp [quote_from_bytes]
  | cons b bs ih =>
    have hb0 : b < 256 := hb b (by simp)
    have hbs : ∀ x ∈ bs, x < 256 := fun x hx => hb x (by simp [hx])
    intro c hc
    unfold quote_from_bytes at hc
    rcases List.mem_append.mp hc with h | h
    · split at h
      · next hsafe =>
        unfold isSafeByte at hsafe
        simp only [List.mem_singleton] at h
        omega
      · simp only [List.mem_cons, List.mem_singleton] at h
        rcases h with rfl | rfl | rfl | hfalse
        · norm_num
        · unfold hexDigitOf; split <;> omega
        · unfold hexDigitOf; split <;> omega
        · simp at hfalse
    · exact ih hbs c h

theorem hexDigitOf_isHexDigit {n : Nat} (h : n < 16) : isHexDigit (hexDigitOf n) := by
  unfold isHexDigit hexDigitOf
  split <;> omega

theorem hexValOf_hexDigitOf {n : Nat} (h : n < 16) : hexValOf (hexDigitOf n) = n := by
  unfold hexValOf hexDigitOf
  split_ifs <;> omega

theorem unquote_to_bytes_quote :
    ∀ {bs : List Nat}, (∀ b ∈ bs, b < 256) → ∀ r : List Nat,
      unquote_to_bytes (quote_from_bytes bs ++ r) = bs ++ unquote_to_bytes r := by
  intro bs
  induction bs with
  | nil => intro _ r; rfl
  | cons b bs ih =>
    intro hb r
    have hb0 : b < 256 := hb b (by simp)
    have hbs : ∀ x ∈ bs, x < 256 := fun x hx => hb x (by simp [hx])
    by_cases hs : isSafeByte b
    · rw [show quote_from_bytes (b :: bs) = b :: quote_from_bytes bs by
        simp [quote_from_bytes, hs]]
      rw [List.cons_append]
      have hne : ¬b = 37 := by unfold isSafeByte at hs; omega
      cases hqr : quote_from_bytes bs ++ r with
      | nil =>
        rw [show unquote_to_bytes [b] = b :: unquote_to_bytes [] from rfl]
        rw [List.cons_append, ← ih hbs r, hqr]
      | cons x xs =>
        cases xs with
        | nil =>
          rw [show unquote_to_bytes [b, x] = b :: unquote_to_bytes [x] from rfl]
          rw [List.cons_append, ← ih hbs r, hqr]
        | cons y ys =>
          rw [show unquote_to_bytes (b :: x :: y :: ys) =
              if b = 37 ∧ isHexDigit x ∧ isHexDigit y then
                (16 * hexValOf x + hexValOf y) :: unquote_to_bytes ys
              else b :: unquote_to_bytes (x :: y :: ys) from rfl]
          rw [if_neg (fun hcon => hne hcon.1)]
          rw [List.cons_append, ← ih hbs r, hqr]
    · rw [show quote_from_bytes (b :: bs) =
          37 :: hexDigitOf (b / 16) :: hexDigitOf (b % 16) :: quote_from_bytes bs by
        simp [quote_from_bytes, hs]]
      rw [List.cons_append, List.cons_append, List.cons_append]
      rw [show unquote_to_bytes
            (37 :: hexDigitOf (b / 16) :: hexDigitOf (b % 16) :: (quote_from_bytes bs ++ r)) =
          if (37 : Nat) = 37 ∧ isHexDigit (hexDigitOf (b / 16)) ∧
              isHexDigit (hexDigitOf (b % 16)) then
            (16 * hexValOf (hexDigitOf (b / 16)) + hexValOf (hexDigitOf (b % 16))) ::
              unquote_to_bytes (quote_from_bytes bs ++ r)
          else 37 :: unquote_to_bytes
            (hexDigitOf (b / 16) :: hexDigitOf (b % 16) :: (quote_from_bytes bs ++ r)) from rfl]
      rw [if_pos ⟨rfl, hexDigitOf_isHexDigit (by omega), hexDigitOf_isHexDigit (by omega)⟩]
      rw [hexValOf_hexDigitOf (by omega), hexValOf_hexDigitOf (by omega)]
      rw [ih hbs r]
      rw [show 16 * (b / 16) + b % 16 = b by omega]
      rfl

set_option maxRecDepth 2048 in
theorem utf8Decode_encode_cons {c : Nat} (h : isScalar c) (rest : List Nat) :
    utf8Decode (utf8EncodeChar c ++ rest) = c :: utf8Decode rest := by
  unfold isScalar at h
  unfold utf8EncodeChar
  by_cases h1 : c < 0x80
  · rw [if_pos h1]
    rw [List.cons_append, List.nil_append]
    rw [utf8Decode]
    rw [if_pos h1]
  · rw [if_neg h1]
    by_cases h2 : c < 0x800
    · rw [if_pos h2]
      simp only [List.cons_append, List.nil_append]
      rw [utf8Decode]
      have hc1 : isContByte (((128 + c % 64) :: rest).getD 0 0) := by
        simp only [List.getD_cons_zero]
        unfold isContByte
        omega
      rw [if_neg (by omega), if_pos ⟨by omega, by omega, hc1⟩]
      simp only [List.getD_cons_zero, List.drop_succ_cons, List.drop_zero]
      congr 1
      omega
    · rw [if_neg h2]
      by_cases h3 : c < 0x10000
      · rw [if_pos h3]
        simp only [List.cons_append, List.nil_append]
        rw [utf8Decode]
        have hb1 : ((128 + c / 64 % 64) :: (128 + c % 64) :: rest).getD 0 0 =
            128 + c / 64 % 64 := by simp
        have hb2 : ((128 + c / 64 % 64) :: (128 + c % 64) :: rest).getD 1 0 =
            128 + c % 64 := by simp
        have hno2 : ¬(0xC2 ≤ 224 + c / 4096 ∧ 224 + c / 4096 < 0xE0 ∧
            isContByte (((128 + c / 64 % 64) :: (128 + c % 64) :: rest).getD 0 0)) := by
          rw [hb1]
          unfold isContByte
          omega
        have hyes3 : 0xE0 ≤ 224 + c / 4096 ∧ 224 + c / 4096 < 0xF0 ∧
            isContByte (((128 + c / 64 % 64) :: (128 + c % 64) :: rest).getD 0 0) ∧
            isContByte (((128 + c / 64 % 64) :: (128 + c % 64) :: rest).getD 1 0) ∧
            ¬(224 + c / 4096 = 0xE0 ∧
              ((128 + c / 64 % 64) :: (128 + c % 64) :: rest).getD 0 0 < 0xA0) ∧
            ¬(224 + c / 4096 = 0xED ∧
              0xA0 ≤ ((128 + c / 64 % 64) :: (128 + c % 64) :: rest).getD 0 0) := by
          rw [hb1, hb2]
          unfold isContByte
          omega
        rw [if_neg (by omega), if_neg hno2, if_pos hyes3]
        simp only [List.getD_cons_zero, List.getD_cons_succ, List.drop_succ_cons,
          List.drop_zero]
        congr 1
        omega
      · rw [if_neg h3]
        simp only [List.cons_append, List.nil_append]
        rw [utf8Decode]
        have hb1 : ((128 + c / 4096 % 64) :: (128 + c / 64 % 64) :: (128 + c % 64) ::
            rest).getD 0 0 = 128 + c / 4096 % 64 := by simp
        have hb2 : ((128 + c / 4096 % 64) :: (128 + c / 64 % 64) :: (128 + c % 64) ::
            rest).getD 1 0 = 128 + c / 64 % 64 := by simp
        have hb3 : ((128 + c / 4096 % 64) :: (128 + c / 64 % 64) :: (128 + c % 64) ::
            rest).getD 2 0 = 128 + c % 64 := by simp
        have hcap : c < 1114112 := by omega
        have hno2 : ¬(0xC2 ≤ 240 + c / 262144 ∧ 240 + c / 262144 < 0xE0 ∧
            isContByte (((128 + c / 4096 % 64) :: (128 + c / 64 % 64) :: (128 + c % 64) ::
              rest).getD 0 0)) := by
          rw [hb1]
          unfold isContByte
          omega
        have hno3 : ¬(0xE0 ≤ 240 + c / 262144 ∧ 240 + c / 262144 < 0xF0 ∧
            isContByte (((128 + c / 4096 % 64) :: (128 + c / 64 % 64) :: (128 + c % 64) ::
              rest).getD 0 0) ∧
            isContByte (((128 + c / 4096 % 64) :: (128 + c / 64 % 64) :: (128 + c % 64) ::
              rest).getD 1 0) ∧
            ¬(240 + c / 262144 = 0xE0 ∧ ((128 + c / 4096 % 64) :: (128 + c / 64 % 64) ::
              (128 + c % 64) :: rest).getD 0 0 < 0xA0) ∧
            ¬(240 + c / 262144 = 0xED ∧ 0xA0 ≤ ((128 + c / 4096 % 64) ::
              (128 + c / 64 % 64) :: (128 + c % 64) :: rest).getD 0 0)) := by
          rw [hb1, hb2]
          unfold isContByte
          omega
        have hyes4 : 0xF0 ≤ 240 + c / 262144 ∧ 240 + c / 262144 < 0xF5 ∧
            isContByte (((128 + c / 4096 % 64) :: (128 + c / 64 % 64) :: (128 + c % 64) ::
              rest).getD 0 0) ∧
            isContByte (((128 + c / 4096 % 64) :: (128 + c / 64 % 64) :: (128 + c % 64) ::
              rest).getD 1 0) ∧
            isContByte (((128 + c / 4096 % 64) :: (128 + c / 64 % 64) :: (128 + c % 64) ::
              rest).getD 2 0) ∧
            ¬(240 + c / 262144 = 0xF0 ∧ ((128 + c / 4096 % 64) :: (128 + c / 64 % 64) ::
              (128 + c % 64) :: rest).getD 0 0 < 0x90) ∧
            ¬(240 + c / 262144 = 0xF4 ∧ 0x90 ≤ ((128 + c / 4096 % 64) ::
              (128 + c / 64 % 64) :: (128 + c % 64) :: rest).getD 0 0) := by
          rw [hb1, hb2, hb3]
          unfold isContByte
          omega
        rw [if_neg (by omega), if_neg hno2, if_neg hno3, if_pos hyes4]
        simp only [List.getD_cons_zero, List.getD_cons_succ, List.drop_succ_cons,
          List.drop_zero]
        congr 1
        omega

theorem utf8Decode_encode {s : List Nat} (h : ∀ c ∈ s, isScalar c) :
    utf8Decode (s.flatMap utf8EncodeChar) = s := by
  induction s with
  | nil => simp [utf8Decode]
  | cons c cs ih =>
    rw [List.flatMap_cons]
    rw [utf8Decode_encode_cons (h c (by simp))]
    rw [ih (fun x hx => h x (by simp [hx]))]

theorem unquoteAux_ascii :
    ∀ (l acc : List Nat), (∀ c ∈ l, c < 0x80) →
      unquoteAux acc l = utf8Decode (unquote_to_bytes (acc.reverse ++ l)) := by
  intro l
  induction l with
  | nil =>
    intro acc _
    rw [unquoteAux, List.append_nil]
  | cons c rest ih =>
    intro acc hl
    rw [unquoteAux]
    rw [if_pos (hl c (by simp))]
    rw [ih (c :: acc) (fun x hx => hl x (by simp [hx]))]
    congr 2
    simp

end UrlEncoder

namespace Pingsc

/-- C1 counterexample: for network 192.168.1.0/28 with a deterministic probe
that is Up exactly for 192.168.1.2 and 192.168.1.10, the final reported list
is ["192.168.1.10", "192.168.1.2"] - Python's `sorted` compares the
`active_hosts` *strings* lexicographically, so the numeric address values
appear in the order [3232235786, 3232235778], which is not ascending.  The
reported list is therefore not sorted by numeric address value. -/
theorem reported_list_not_numeric_sorted :
    (Pingsc.main "192.168.1.0/28" probeTwoUp).reported = ["192.168.1.10", "192.168.1.2"] ∧
    ((Pingsc.main "192.168.1.0/28" probeTwoUp).reported.map
      (fun ip => (parseIPv4 ip.data).getD 0)) = [3232235786, 3232235778] ∧
    ¬ List.Pairwise (fun a b : Nat => a ≤ b)
      ((Pingsc.main "192.168.1.0/28" probeTwoUp).reported.map
        (fun ip => (parseIPv4 ip.data).getD 0)) := by
  refine ⟨by decide, by decide, by decide⟩

/-- C1 (amended): for every sweep, the final reported list of Up addresses is
sorted lexicographically by dotted-decimal string (the order Python's
`sorted` imposes on the list of strings), not by numeric address value, and
it is identical for any two runs with the same deterministic probe mapping
and any nonzero worker ceilings - the appended value of each future is a
pure function of its address, independent of completion order. -/
theorem reported_sorted_lexicographic (s : String) (p : String → ProbeOutcome)
    (w1 w2 : Nat) (h1 : w1 ≠ 0) (h2 : w2 ≠ 0) :
    List.Sorted pyStrLe (reportedList s p w1) ∧
    reportedList s p w1 = reportedList s p w2 := by
  constructor
  · haveI : IsTotal String pyStrLe := ⟨pyStrLe_total⟩
    haveI : IsTrans String pyStrLe := ⟨pyStrLe_trans⟩
    exact List.sorted_insertionSort pyStrLe _
  · unfold reportedList
    rw [scan_subnet_indep s p h1 h2]

/-- Witness for C1's amended theorem at a concrete instance. -/
theorem reported_sorted_lexicographic_witness :
    (1 : Nat) ≠ 0 ∧ (50 : Nat) ≠ 0 ∧
    (List.Sorted pyStrLe (reportedList "192.168.1.0/28" probeTwoUp 1) ∧
      reportedList "192.168.1.0/28" probeTwoUp 1 = reportedList "192.168.1.0/28" probeTwoUp 50) :=
  ⟨by decide, by decide,
    reported_sorted_lexicographic "192.168.1.0/28" probeTwoUp 1 50 (by decide) (by decide)⟩

/-- C2 counterexample: on the unparsable specification "not-a-subnet" the
program exits with code 0, not a non-zero code - `scan_subnet` swallows the
`ValueError`, returns an empty list, and `main` runs to completion. -/
theorem invalid_range_exit_code_zero :
    ip_network "not-a-subnet" = none ∧
    (scan_subnet "not-a-subnet" probeAllDown 50).submitted = [] ∧
    (Pingsc.main "not-a-subnet" probeAllDown).exit_code = 0 := by
  refine ⟨by decide, by decide, by decide⟩

/-- C2 (amended): for every input string that cannot be parsed as a valid
network specification, the `ValueError` is raised (and caught) before any
probe task is created, so no probing occurs, the sweep returns an empty
list after printing the invalid-subnet error - but the program still exits
with code 0, not a non-zero code. -/
theorem invalid_range_no_probes (s : String) (p : String → ProbeOutcome) (w : Nat)
    (h : ip_network s = none) :
    (scan_subnet s p w).submitted = [] ∧ (scan_subnet s p w).active_hosts = [] ∧
    (scan_subnet s p w).error_printed = true ∧ (Pingsc.main s p).exit_code = 0 := by
  unfold scan_subnet Pingsc.main
  rw [h]
  exact ⟨rfl, rfl, rfl, rfl⟩

/-- Witness for C2's amended theorem at the spec's failure scenario. -/
theorem invalid_range_no_probes_witness :
    ip_network "not-a-subnet" = none ∧
    ((scan_subnet "not-a-subnet" probeAllDown 7).submitted = [] ∧
      (scan_subnet "not-a-subnet" probeAllDown 7).active_hosts = [] ∧
      (scan_subnet "not-a-subnet" probeAllDown 7).error_printed = true ∧
      (Pingsc.main "not-a-subnet" probeAllDown).exit_code = 0) :=
  ⟨by decide, invalid_range_no_probes "not-a-subnet" probeAllDown 7 (by decide)⟩

/-- C3: scanning 192.168.1.0/30 with a fake probe that is Up exactly for
192.168.1.1 yields the Up-list ["192.168.1.1"] and an attempted count
(`total_scanned`) of 2: the network address .0 and broadcast address .3 are
excluded by `hosts()`, so only .1 and .2 are probed. -/
theorem slash30_scenario :
    (scan_subnet "192.168.1.0/30" probeUpDotOne 50).active_hosts = ["192.168.1.1"] ∧
    (scan_subnet "192.168.1.0/30" probeUpDotOne 50).total_scanned = 2 ∧
    (scan_subnet "192.168.1.0/30" probeUpDotOne 50).submitted = ["192.168.1.1", "192.168.1.2"] ∧
    (Pingsc.main "192.168.1.0/30" probeUpDotOne).reported = ["192.168.1.1"] := by
  refine ⟨by decide, by decide, by decide, by decide⟩

/-- C4: a probe that times out or raises any execution error yields outcome
Down (`ping_host` returns `false`) for that address only; a sweep in which
every probe fails still completes with an empty Up-list, no sweep-level
error, the full attempted count, and exit code 0. -/
theorem probe_failure_nonfatal (s : String) (net : IPNetwork) (p : String → ProbeOutcome)
    (w : Nat) (hw : w ≠ 0) (hs : ip_network s = some net)
    (hp : ∀ ip, p ip = ProbeOutcome.timedOut ∨ p ip = ProbeOutcome.error) :
    (∀ ip, (ping_host p ip).1 = false) ∧
    (scan_subnet s p w).active_hosts = [] ∧
    (scan_subnet s p w).error_printed = false ∧
    (scan_subnet s p w).total_scanned = (hostsList net).length ∧
    (Pingsc.main s p).exit_code = 0 := by
  have hping : ∀ ip, (ping_host p ip).1 = false := by
    intro ip
    unfold ping_host
    rcases hp ip with h | h <;> rw [h]
  refine ⟨hping, ?_, ?_, ?_, rfl⟩
  all_goals simp [scan_subnet, hs, hw, hping]

/-- Witness for C4 at the spec's timeout scenario on 10.0.0.0/30. -/
theorem probe_failure_nonfatal_witness :
    (50 : Nat) ≠ 0 ∧ ip_network "10.0.0.0/30" = some ⟨167772160, 30⟩ ∧
    (∀ ip, probeAllDown ip = ProbeOutcome.timedOut ∨ probeAllDown ip = ProbeOutcome.error) ∧
    ((∀ ip, (ping_host probeAllDown ip).1 = false) ∧
      (scan_subnet "10.0.0.0/30" probeAllDown 50).active_hosts = [] ∧
      (scan_subnet "10.0.0.0/30" probeAllDown 50).error_printed = false ∧
      (scan_subnet "10.0.0.0/30" probeAllDown 50).total_scanned =
        (hostsList ⟨167772160, 30⟩).length ∧
      (Pingsc.main "10.0.0.0/30" probeAllDown).exit_code = 0) :=
  ⟨by decide, by decide, fun ip => Or.inl rfl,
    probe_failure_nonfatal "10.0.0.0/30" ⟨167772160, 30⟩ probeAllDown 50 (by decide)
      (by decide) (fun ip => Or.inl rfl)⟩

/-- C5: for every valid network specification, the addresses of the final
ProbeResult set are exactly the expanded host addresses, and every expanded
address carries exactly one result - no drops and no duplicates. -/
theorem probe_results_exactly_once (s : String) (net : IPNetwork)
    (p : String → ProbeOutcome) (_h : ip_network s = some net) :
    (probeResults net p).map Prod.fst = hostsList net ∧
    ∀ a ∈ hostsList net, ((probeResults net p).map Prod.fst).count a = 1 := by
  have hpair : ∀ l : List Nat,
      (l.map (fun ip => (ip, (ping_host p (numToDotted ip)).1))).map Prod.fst = l := by
    intro l
    induction l with
    | nil => rfl
    | cons a l ih => simp [ih]
  have hmap : (probeResults net p).map Prod.fst = hostsList net := by
    unfold probeResults
    exact hpair (hostsList net)
  refine ⟨hmap, fun a ha => ?_⟩
  rw [hmap]
  exact List.count_eq_one_of_mem (hostsList_nodup net) ha

/-- Witness for C5 on 10.0.0.0/30. -/
theorem probe_results_exactly_once_witness :
    ip_network "10.0.0.0/30" = some ⟨167772160, 30⟩ ∧
    ((probeResults ⟨167772160, 30⟩ probeAllDown).map Prod.fst = hostsList ⟨167772160, 30⟩ ∧
      ∀ a ∈ hostsList ⟨167772160, 30⟩,
        ((probeResults ⟨167772160, 30⟩ probeAllDown).map Prod.fst).count a = 1) :=
  ⟨by decide, probe_results_exactly_once "10.0.0.0/30" ⟨167772160, 30⟩ probeAllDown (by decide)⟩

/-- C6: for every parsed IPv4 network, the expanded host sequence has length
`2 ^ (32 - p) - 2` when the prefix has at least two host bits (`p ≤ 30`) and
length `2 ^ (32 - p)` for /31 and /32; the sequence is strictly ascending by
numeric value, hence duplicate-free. -/
theorem hosts_length_ascending (s : String) (net : IPNetwork)
    (h : ip_network s = some net) :
    ((hostsList net).length =
      if net.prefixlen ≤ 30 then 2 ^ (32 - net.prefixlen) - 2
      else 2 ^ (32 - net.prefixlen)) ∧
    (hostsList net).Pairwise (fun a b => a < b) ∧ (hostsList net).Nodup :=
  ⟨hostsList_length net (ip_network_prefixlen_le h), hostsList_pairwise_lt net,
    hostsList_nodup net⟩

/-- Witness for C6 on 10.0.0.0/28. -/
theorem hosts_length_ascending_witness :
    ip_network "10.0.0.0/28" = some ⟨167772160, 28⟩ ∧
    (((hostsList ⟨167772160, 28⟩).length =
      if (28 : Nat) ≤ 30 then 2 ^ (32 - 28) - 2 else 2 ^ (32 - 28)) ∧
      (hostsList ⟨167772160, 28⟩).Pairwise (fun a b => a < b) ∧
      (hostsList ⟨167772160, 28⟩).Nodup) :=
  ⟨by decide, hosts_length_ascending "10.0.0.0/28" ⟨167772160, 28⟩ (by decide)⟩

/-- C7: expanding 10.0.0.0/32 yields exactly [10.0.0.0] and expanding
10.0.0.0/31 yields exactly [10.0.0.0, 10.0.0.1]; both single-host prefixes
yield every address in the block, never an empty sequence, and both
addresses of the /31 are submitted for probing. -/
theorem single_host_blocks :
    ip_network "10.0.0.0/32" = some ⟨167772160, 32⟩ ∧
    hostsList ⟨167772160, 32⟩ = [167772160] ∧
    ip_network "10.0.0.0/31" = some ⟨167772160, 31⟩ ∧
    hostsList ⟨167772160, 31⟩ = [167772160, 167772161] ∧
    (scan_subnet "10.0.0.0/32" probeAllDown 50).submitted = ["10.0.0.0"] ∧
    (scan_subnet "10.0.0.0/31" probeAllDown 50).submitted = ["10.0.0.0", "10.0.0.1"] := by
  refine ⟨by decide, by decide, by decide, by decide, by decide, by decide⟩

/-- C8: sweeping the same specification against the same deterministic probe
mapping yields the identical sorted Up-list on every run and for every
worker ceiling W in {1, 10, 50} - the result is a pure function of the
specification and the probe mapping. -/
theorem sweep_idempotent_concurrency (s : String) (p : String → ProbeOutcome)
    (w1 w2 : Nat) (h1 : w1 ∈ [1, 10, 50]) (h2 : w2 ∈ [1, 10, 50]) :
    reportedList s p w1 = reportedList s p w2 := by
  have e1 : w1 ≠ 0 := by
    simp only [List.mem_cons, List.not_mem_nil, or_false] at h1
    rcases h1 with rfl | rfl | rfl <;> decide
  have e2 : w2 ≠ 0 := by
    simp only [List.mem_cons, List.not_mem_nil, or_false] at h2
    rcases h2 with rfl | rfl | rfl <;> decide
  unfold reportedList
  rw [scan_subnet_indep s p e1 e2]

/-- Witness for C8 with W = 1 and W = 50 on 192.168.1.0/30. -/
theorem sweep_idempotent_concurrency_witness :
    (1 : Nat) ∈ [1, 10, 50] ∧ (50 : Nat) ∈ [1, 10, 50] ∧
    reportedList "192.168.1.0/30" probeUpDotOne 1 =
      reportedList "192.168.1.0/30" probeUpDotOne 50 :=
  ⟨by decide, by decide,
    sweep_idempotent_concurrency "192.168.1.0/30" probeUpDotOne 1 50 (by decide) (by decide)⟩

/-- C9: the claim says results are consumed in completion order, but the
loop `for future in future_to_ip` consumes futures in submission order: with
two probes submitted in order and completion times 10 and 1 (all workers
started at time 0), the second probe completes at time 1 yet its result is
consumed only at time 10, blocked on the earlier-submitted hung probe.  This
contradicts the code's own comment "Process results as they complete". -/
theorem consumption_blocks_on_earlier_probe :
    completionTime [10, 1] 1 = 1 ∧ resultConsumeTime [10, 1] 1 = 10 ∧
    resultConsumeTime [10, 1] 1 ≠ completionTime [10, 1] 1 := by
  refine ⟨by decide, by decide, by decide⟩

end Pingsc

namespace UrlEncoder

/-- C10: URL-decoding the URL-encoding of a string returns it unchanged:
`urllib.parse.unquote` is a left inverse of `urllib.parse.quote` on every
string of Unicode scalar values (the domain on which `quote`'s internal
`str.encode('utf-8')` is defined). -/
theorem unquote_quote (s : List Nat) (h : ∀ c ∈ s, isScalar c) :
    unquote (quote s) = s := by
  have hbytes : ∀ b ∈ s.flatMap utf8EncodeChar, b < 256 := by
    intro b hb
    rw [List.mem_flatMap] at hb
    obtain ⟨c, hc, hbc⟩ := hb
    have hsc := h c hc
    refine utf8EncodeChar_lt_256 ?_ b hbc
    unfold isScalar at hsc
    omega
  unfold unquote quote
  rw [unquoteAux_ascii _ [] (quote_from_bytes_ascii hbytes)]
  rw [List.reverse_nil, List.nil_append]
  have hq := unquote_to_bytes_quote hbytes []
  rw [List.append_nil] at hq
  rw [hq]
  rw [show unquote_to_bytes ([] : List Nat) = [] from rfl]
  rw [List.append_nil]
  exact utf8Decode_encode h

/-- Witness for C10 on a string exercising 1-, 2-, 3- and 4-byte UTF-8
sequences and both safe and escaped bytes:
"h", U+00D8, the euro sign, a space, an emoji, "/". -/
theorem unquote_quote_witness :
    (∀ c ∈ [104, 216, 8364, 32, 128512, 47], isScalar c) ∧
    unquote (quote [104, 216, 8364, 32, 128512, 47]) = [104, 216, 8364, 32, 128512, 47] :=
  ⟨by decide, unquote_quote [104, 216, 8364, 32, 128512, 47] (by decide)⟩

end UrlEncoder
